import Mathlib

/-!
Verification of the `@asasvirtuais/crud` file-backed storage adapter
(`src/yaml/yaml.ts`), its query evaluator, and the serializing write gate
(`Mutex` in `src/yaml/queue.ts`), via a shallow embedding.

Records are modelled as insertion-ordered association lists from field
name to a JavaScript-style value.  The filesystem underneath the adapter
is modelled as an association list of table directories, each a list of
`<id>.yaml` files whose parsed content is either a record or a parse
failure.  All definitions follow the TypeScript source line by line; the
comments cite the construct they translate.
-/

namespace Crud

/-- JavaScript values as they occur in records and queries of this
repository: YAML scalars, arrays and plain objects, plus `null` and
`undefined`.  Numbers are modelled as integers (the record fields the
repository's queries compare are integer- or string-valued). -/
inductive JSValue where
  | vUndefined
  | vNull
  | vBool (b : Bool)
  | vNum (n : Int)
  | vStr (s : String)
  | vArr (elems : List JSValue)
  | vObj (fields : List (String × JSValue))

/-- A record / plain JS object: own enumerable string-keyed properties in
insertion order.  Keys are unique in every object the adapter builds. -/
abbrev JSRecord := List (String × JSValue)

/-- First binding of key `k` (JS objects hold each key once). -/
def lookupField : JSRecord → String → Option JSValue
  | [], _ => none
  | (k', v) :: rest, k => if k' = k then some v else lookupField rest k

/-- JS property read `o[k]`: an absent property reads as `undefined`. -/
def getProp (r : JSRecord) (k : String) : JSValue :=
  (lookupField r k).getD .vUndefined

/-- Whether the object has an own property `k`. -/
def containsKey (r : JSRecord) (k : String) : Bool :=
  (lookupField r k).isSome

/-- JS property write `o[k] = v`: overwrite in place when the key exists
(its position is kept), otherwise append the new key at the end. -/
def setProp (r : JSRecord) (k : String) (v : JSValue) : JSRecord :=
  if containsKey r k then
    r.map (fun kv => if kv.1 = k then (k, v) else kv)
  else
    r ++ [(k, v)]

/-- Object spread `{ ...a, ...b }`: the result lists `a`'s keys first, in
order, each taking `b`'s value when `b` also has the key, followed by the
keys only `b` has, in `b`'s order. -/
def spreadMerge (a b : JSRecord) : JSRecord :=
  (a.map fun kv =>
    match lookupField b kv.1 with
    | some v => (kv.1, v)
    | none => kv)
  ++ b.filter fun kv => ! containsKey a kv.1

/-! ### JavaScript coercions and comparisons

The operator switch of `list` (yaml.ts lines 56–79) uses `!=` (loose
inequality), `includes` and the relational operators `<  <=  >  >=` on
untyped values, so the embedding reproduces the relevant part of the
ECMAScript coercion rules. -/

/-- Translation of `typeof v === 'object' && v !== null` — arrays and plain objects. -/
def isObjectVal : JSValue → Bool
  | .vArr _ => true
  | .vObj _ => true
  | _ => false

mutual

/-- ECMAScript `ToString` restricted to the values of the model (for
objects this is the `ToPrimitive` string: arrays join their elements with
a comma, plain objects print `[object Object]`). -/
def jsToString : JSValue → String
  | .vUndefined => "undefined"
  | .vNull => "null"
  | .vBool b => if b then "true" else "false"
  | .vNum n => toString n
  | .vStr s => s
  | .vObj _ => "[object Object]"
  | .vArr xs => String.intercalate "," (arrElemStrings xs)

/-- Elements of `Array.prototype.toString`: `null` and `undefined` render
empty, anything else via `jsToString`. -/
def arrElemStrings : List JSValue → List String
  | [] => []
  | .vUndefined :: rest => "" :: arrElemStrings rest
  | .vNull :: rest => "" :: arrElemStrings rest
  | x :: rest => jsToString x :: arrElemStrings rest

end

/-- ECMAScript `ToPrimitive` with default hint, as used by `==`, `<` etc.: arrays
and plain objects become their string rendering, primitives are
unchanged. -/
def toPrimitiveVal (v : JSValue) : JSValue :=
  if isObjectVal v then .vStr (jsToString v) else v

/-- ECMAScript `Number(string)` on the integer-format strings of the model: blank
strings convert to 0, decimal integer strings to their value, anything
else to NaN (`none`).  (Fractional, exponent and hex forms do not occur
in the repository's data and are outside the model.) -/
def strToNumber (s : String) : Option Int :=
  let t := s.trim
  if t = "" then some 0 else t.toInt?

/-- ECMAScript `ToNumber` on primitives (NaN is `none`; the model's
`vNum` values are always finite integers, so NaN only arises from
`undefined` and unparseable strings). -/
def jsToNumber (v : JSValue) : Option Int :=
  match toPrimitiveVal v with
  | .vUndefined => none
  | .vNull => some 0
  | .vBool b => some (if b then 1 else 0)
  | .vNum n => some n
  | .vStr s => strToNumber s
  | _ => none

/-- Loose equality `==` between primitives (IsLooselyEqual, steps for
non-object operands): `null == undefined`, same-type structural
comparison, numbers against numeric strings, booleans coerced to
numbers. -/
def primLooseEq : JSValue → JSValue → Bool
  | .vUndefined, .vUndefined => true
  | .vNull, .vNull => true
  | .vUndefined, .vNull => true
  | .vNull, .vUndefined => true
  | .vNum a, .vNum b => a = b
  | .vStr a, .vStr b => a = b
  | .vBool a, .vBool b => a = b
  | .vNum a, .vStr s => strToNumber s = some a
  | .vStr s, .vNum a => strToNumber s = some a
  | .vBool a, .vNum b => (if a then (1 : Int) else 0) = b
  | .vNum a, .vBool b => a = (if b then (1 : Int) else 0)
  | .vBool a, .vStr s => strToNumber s = some (if a then (1 : Int) else 0)
  | .vStr s, .vBool a => strToNumber s = some (if a then (1 : Int) else 0)
  | _, _ => false

/-- Loose equality `==` on the model's values.  Two object operands
compare by reference; in the evaluator one operand always comes from a
parsed record and the other from the caller's query, which are distinct
heap objects, so object-object comparison is `false`.  An object against
a non-nullish primitive compares via `ToPrimitive`. -/
def jsLooseEq (a b : JSValue) : Bool :=
  if isObjectVal a && isObjectVal b then false
  else if isObjectVal a then
    match b with
    | .vUndefined => false
    | .vNull => false
    | _ => primLooseEq (.vStr (jsToString a)) b
  else if isObjectVal b then
    match a with
    | .vUndefined => false
    | .vNull => false
    | _ => primLooseEq a (.vStr (jsToString b))
  else primLooseEq a b

/-- Strict equality `===`: same type and same value; object operands
compare by reference (distinct objects here, see `jsLooseEq`).  This is
also `Array.prototype.includes`' SameValueZero on the model's values
(no NaN, no signed zero). -/
def jsStrictEq : JSValue → JSValue → Bool
  | .vUndefined, .vUndefined => true
  | .vNull, .vNull => true
  | .vBool a, .vBool b => a = b
  | .vNum a, .vNum b => a = b
  | .vStr a, .vStr b => a = b
  | _, _ => false

/-- Relational `a < b` (IsLessThan): two strings compare
lexicographically, otherwise both sides convert to numbers and NaN makes
the comparison false. -/
def jsLt (a b : JSValue) : Bool :=
  match toPrimitiveVal a, toPrimitiveVal b with
  | .vStr x, .vStr y => x < y
  | pa, pb =>
    match jsToNumber pa, jsToNumber pb with
    | some x, some y => x < y
    | _, _ => false

/-- Relational `a <= b`, i.e. `!(b < a)` with NaN making it false. -/
def jsLe (a b : JSValue) : Bool :=
  match toPrimitiveVal a, toPrimitiveVal b with
  | .vStr x, .vStr y => x ≤ y
  | pa, pb =>
    match jsToNumber pa, jsToNumber pb with
    | some x, some y => x ≤ y
    | _, _ => false

/-- Translation of `String.prototype.includes`: substring containment. -/
def strContains (s t : String) : Bool :=
  if t.isEmpty then true else (s.splitOn t).length > 1

/-! ### The query object and the filter evaluator (yaml.ts lines 45–119)

`list` destructures `const { $limit, $skip, $sort, $select, ...filters } =
query`.  The embedding represents a query in already-destructured form:
the four shaping directives as typed options (their TypeScript types in
`core.ts` are `number`, `{[key]: 1 | -1}` and `Array<keyof T>`), and
everything else — field constraints and also `$or` / `$and`, which the
destructuring does *not* extract — as the ordered field list `filters`. -/
structure YamlQuery where
  filters : List (String × JSValue) := []
  sort : Option (List (String × Int)) := none
  limit : Option Int := none
  skip : Option Int := none
  select : Option (List String) := none

/-- Translation of `Object.entries(value)` for the two object shapes: a plain object
yields its fields, an array yields its elements keyed by their decimal
indices. -/
def jsEntries : JSValue → List (String × JSValue)
  | .vObj fields => fields
  | .vArr xs => xs.enum.map fun p => (toString p.1, p.2)
  | _ => []

/-- One case of the operator switch (yaml.ts lines 56–79) applied to the
record's field value: `$ne` is loose `!=`, `$in`/`$nin` require an array
operand and use `includes`, the four relational operators coerce as in
JS, `$search` is a case-insensitive substring test on string fields, and
every unknown operator key is ignored (returns true). -/
def evalOp (recordValue : JSValue) (op : String) (opValue : JSValue) : Bool :=
  match op with
  | "$ne" => ! jsLooseEq recordValue opValue
  | "$in" =>
    match opValue with
    | .vArr xs => xs.any fun x => jsStrictEq x recordValue
    | _ => false
  | "$nin" =>
    match opValue with
    | .vArr xs => ! xs.any fun x => jsStrictEq x recordValue
    | _ => false
  | "$lt" => jsLt recordValue opValue
  | "$lte" => jsLe recordValue opValue
  | "$gt" => jsLt opValue recordValue
  | "$gte" => jsLe opValue recordValue
  | "$search" =>
    match recordValue with
    | .vStr s => strContains s.toLower (jsToString opValue).toLower
    | _ => false
  | _ => true

/-- The record predicate of `records.filter` (yaml.ts lines 50–83): every
filter entry must hold; an object-typed (or array-typed) query value runs
the operator switch over its entries, any other value requires strict
equality with the record's field. -/
def matchesFilters (filters : List (String × JSValue)) (record : JSRecord) : Bool :=
  filters.all fun kv =>
    let recordValue := getProp record kv.1
    if isObjectVal kv.2 then
      (jsEntries kv.2).all fun ov => evalOp recordValue ov.1 ov.2
    else
      jsStrictEq recordValue kv.2

/-- The filtering step: applied only when the destructured rest object
has at least one key (yaml.ts line 49). -/
def applyFilters (filters : List (String × JSValue)) (records : List JSRecord) :
    List JSRecord :=
  if filters.length > 0 then records.filter (matchesFilters filters) else records

/-- Insert `x` (an element that preceded the already-sorted suffix) in
front of the first element the comparator does not place strictly before
it: the insertion step of a stable comparator sort. -/
def insertCmp {α : Type} (cmp : α → α → Int) (x : α) : List α → List α
  | [] => [x]
  | y :: ys => if cmp y x < 0 then y :: insertCmp cmp x ys else x :: y :: ys

/-- Translation of `Array.prototype.sort(comparator)`: required stable since ES2019,
modelled by a stable insertion sort driven by the same three-valued
comparator. -/
def sortByComparator {α : Type} (cmp : α → α → Int) : List α → List α
  | [] => []
  | x :: xs => insertCmp cmp x (sortByComparator cmp xs)

/-- The sorting step (yaml.ts lines 88–99): only the first declared sort
key is used; direction is 1 exactly when the declared value is 1; the
comparator returns `-1 * direction` / `1 * direction` / `0` from the JS
`<` and `>` on the key's values. -/
def sortRecords (sortSpec : List (String × Int)) (records : List JSRecord) :
    List JSRecord :=
  match sortSpec with
  | [] => records
  | (key, dirVal) :: _ =>
    let direction : Int := if dirVal = 1 then 1 else -1
    sortByComparator
      (fun a b =>
        if jsLt (getProp a key) (getProp b key) then -1 * direction
        else if jsLt (getProp b key) (getProp a key) then 1 * direction
        else 0)
      records

/-- JS `x || d` on an optional number: an absent (`undefined`) or zero
(falsy) value falls through to the default. -/
def orFalsy (x : Option Int) (d : Int) : Int :=
  match x with
  | some v => if v = 0 then d else v
  | none => d

/-- Translation of `Array.prototype.slice(start, stop)` with integer arguments: negative
indices count from the end, both are clamped to `[0, length]`. -/
def jsSlice {α : Type} (l : List α) (start stop : Int) : List α :=
  let len : Int := l.length
  let s := if start < 0 then max (len + start) 0 else min start len
  let e := if stop < 0 then max (len + stop) 0 else min stop len
  (l.drop s.toNat).take (e - s).toNat

/-- The projection of one record (yaml.ts lines 108–117): start from
`{ id: record.id }` and assign `selectedRecord[key] = record[key]` for
each selected key in order — a key the record lacks is still assigned,
with value `undefined`. -/
def projectRecord (select : List String) (record : JSRecord) : JSRecord :=
  select.foldl (fun acc key => setProp acc key (getProp record key))
    [("id", getProp record "id")]

/-- The whole `if (query) { ... }` block of `list` (yaml.ts lines
45–119): filter, then sort (when `$sort` is present), then paginate with
`skip = $skip || 0` and `limit = $limit || records.length`, then project
(when `$select` is present). -/
def applyQuery (q : YamlQuery) (records0 : List JSRecord) : List JSRecord :=
  let records1 := applyFilters q.filters records0
  let records2 :=
    match q.sort with
    | some s => sortRecords s records1
    | none => records1
  let skip := orFalsy q.skip 0
  let limit := orFalsy q.limit records2.length
  let records3 := jsSlice records2 skip (skip + limit)
  match q.select with
  | some sel => records3.map (projectRecord sel)
  | none => records3

/-! ### The file store

One record per file at `<databasePath>/<table>/<id>.yaml`.  A table
directory is the ordered list of its `.yaml` files (the only files the
adapter ever considers: `list` filters on the `.yaml` suffix), keyed by
the file's basename; each file's parsed content is either a record or a
parse failure (`YAML.parse` throwing).  The store is the ordered list of
existing table directories; a table absent from it is a directory
`fs.existsSync` reports missing.  The constant `databasePath` prefix is
elided from paths. -/

/-- Parsed content of one `<id>.yaml` file. -/
inductive FileContent where
  | ok (record : JSRecord)
  | corrupt

/-- The `.yaml` files of one table directory, in enumeration order. -/
abbrev TableDir := List (String × FileContent)

/-- The existing table directories under `databasePath`. -/
abbrev Store := List (String × TableDir)

/-- Translation of `fs.existsSync(tablePath(name))`, with the directory's content. -/
def lookupTable : Store → String → Option TableDir
  | [], _ => none
  | (t, files) :: rest, table => if t = table then some files else lookupTable rest table

/-- Translation of `fs.existsSync(recordPath(table, id))`, with the file's content. -/
def lookupFile : TableDir → String → Option FileContent
  | [], _ => none
  | (i, c) :: rest, id => if i = id then some c else lookupFile rest id

/-- The file for `id` in `table`, when both the directory and the file
exist. -/
def fileLookup (store : Store) (table id : String) : Option FileContent :=
  (lookupTable store table).bind fun files => lookupFile files id

/-- Translation of `recordPath` (yaml.ts line 13), without the constant database
prefix. -/
def recordPath (table id : String) : String :=
  table ++ "/" ++ id ++ ".yaml"

/-- What an adapter call can throw: the `Record not found: <path>` error
(yaml.ts lines 17 and 144) or a `YAML.parse` failure on a corrupt file. -/
inductive AdapterError where
  | notFound (path : String)
  | parseError (table id : String)

/-- Translation of `readRecord` (yaml.ts lines 14–20): throw `Record not found` when
the file does not exist (a missing table directory makes every file of it
missing), otherwise read and parse it.  Writing and re-reading a record
round-trips through `YAML.stringify`/`YAML.parse`, which is the identity
on the model's records. -/
def readRecord (store : Store) (table id : String) : Except AdapterError JSRecord :=
  match fileLookup store table id with
  | none => .error (.notFound (recordPath table id))
  | some .corrupt => .error (.parseError table id)
  | some (.ok r) => .ok r

/-- Translation of `find` (yaml.ts lines 22–24). -/
def findOp (store : Store) (table id : String) : Except AdapterError JSRecord :=
  readRecord store table id

/-- Translation of `list` (yaml.ts lines 25–122): an absent table directory yields `[]`;
otherwise every `.yaml` file is read, a file whose read throws (a corrupt
file) is logged and skipped, and the query block is applied when a query
was given. -/
def listOp (store : Store) (table : String) (query : Option YamlQuery) :
    List JSRecord :=
  match lookupTable store table with
  | none => []
  | some files =>
    let records := files.filterMap fun ic =>
      match ic.2 with
      | .ok r => some r
      | .corrupt => none
    match query with
    | none => records
    | some q => applyQuery q records

/-- Translation of `writeFile(recordPath(table, id), YAML.stringify(record))`: replace
the file's content when it exists, append the new file otherwise. -/
def upsertFile (files : TableDir) (id : String) (content : FileContent) : TableDir :=
  if (lookupFile files id).isSome then
    files.map fun ic => if ic.1 = id then (id, content) else ic
  else
    files ++ [(id, content)]

/-- The write above lifted to the store (the table directory exists
whenever the adapter writes: `create` makes it first, `update` has just
read a record from it). -/
def writeFileToStore (store : Store) (table id : String) (content : FileContent) :
    Store :=
  store.map fun tf => if tf.1 = table then (tf.1, upsertFile tf.2 id content) else tf

/-- Removal of the file named `id` from a table directory. -/
def removeFileEntry : TableDir → String → TableDir
  | [], _ => []
  | (i, c) :: rest, id =>
    if i = id then removeFileEntry rest id else (i, c) :: removeFileEntry rest id

/-- Translation of `fs.unlinkSync(recordPath(table, id))` on the store. -/
def unlinkFile : Store → String → String → Store
  | [], _, _ => []
  | (t, files) :: rest, table, id =>
    (if t = table then (t, removeFileEntry files id) else (t, files))
      :: unlinkFile rest table id

/-- Translation of `create` (yaml.ts lines 123–133): make the table directory when it
is missing, build `{ id, ...props.data }` with the freshly generated id
(the spread lets a submitted `id` field overwrite the generated one),
write it under the *generated* id through the file mutex, and return the
built record.  `generateId`'s fresh random id is passed in as `genId`. -/
def createOp (store : Store) (table : String) (data : JSRecord) (genId : String) :
    JSRecord × Store :=
  let store' :=
    match lookupTable store table with
    | some _ => store
    | none => store ++ [(table, [])]
  let record := spreadMerge [("id", .vStr genId)] data
  (record, writeFileToStore store' table genId (.ok record))

/-- Translation of `update` (yaml.ts lines 134–139): read the existing record (throwing
leaves the store untouched), build `{ ...record, ...props.data }`, write
it back under the given id through the file mutex, return it. -/
def updateOp (store : Store) (table id : String) (data : JSRecord) :
    Except AdapterError JSRecord × Store :=
  match readRecord store table id with
  | .error e => (.error e, store)
  | .ok record =>
    let updatedRecord := spreadMerge record data
    (.ok updatedRecord, writeFileToStore store table id (.ok updatedRecord))

/-- Translation of `remove` (yaml.ts lines 140–150): read the record, re-check that the
file exists (redundant after a successful read), unlink it and return
`{ id, ...data }`. -/
def removeOp (store : Store) (table id : String) :
    Except AdapterError JSRecord × Store :=
  match readRecord store table id with
  | .error e => (.error e, store)
  | .ok data =>
    if (fileLookup store table id).isSome then
      (.ok (spreadMerge [("id", .vStr id)] data), unlinkFile store table id)
    else
      (.error (.notFound (recordPath table id)), store)

/-! ### The serializing write gate (`Mutex`, src/yaml/queue.ts)

The settled outcome of a JS promise is fulfilled-with-a-value or
rejected-with-an-error.  An operation handed to `run` is modelled as a
function of a shared world state that returns its settled outcome and
the state it leaves behind (a failing operation may still have mutated
the world).  The `Mutex`'s private `promise` field holds, denotationally,
the settled outcome of the current chain tail. -/

/-- A settled promise. -/
inductive Outcome (ε α : Type) where
  | fulfilled (a : α)
  | rejected (e : ε)

/-- Translation of `p.catch(() => {})`: never rejected afterwards. -/
def promiseCatch {ε α : Type} : Outcome ε α → Outcome ε Unit
  | .fulfilled _ => .fulfilled ()
  | .rejected _ => .fulfilled ()

/-- The gate: `private promise: Promise<any> = Promise.resolve()`. -/
structure Mutex (ε : Type) where
  promise : Outcome ε Unit

/-- Translation of `new Mutex()`. -/
def Mutex.init {ε : Type} : Mutex ε := ⟨.fulfilled ()⟩

/-- Translation of `run(fn)`: `result = this.promise.then(fn)` — `fn` executes only once
the stored chain has settled, and is skipped (with `result` rejecting)
if the chain settled rejected — then `this.promise = result.catch(() =>
{})` and `result` is returned to the caller. -/
def Mutex.run {ε σ α : Type} (m : Mutex ε) (fn : σ → Outcome ε α × σ)
    (world : σ) : Outcome ε α × Mutex ε × σ :=
  match m.promise with
  | .fulfilled _ =>
    let (result, world') := fn world
    (result, ⟨promiseCatch result⟩, world')
  | .rejected e => (.rejected e, ⟨.fulfilled ()⟩, world)

/-- A sequence of `run` calls against one gate, in scheduling order:
each call's result handle, the gate's final state and the final world. -/
def Mutex.runAll {ε σ α : Type} (m : Mutex ε) (fns : List (σ → Outcome ε α × σ))
    (world : σ) : List (Outcome ε α) × Mutex ε × σ :=
  match fns with
  | [] => ([], m, world)
  | fn :: rest =>
    let (r, m', world') := m.run fn world
    let (rs, mF, worldF) := m'.runAll rest world'
    (r :: rs, mF, worldF)

/-- Plain sequential execution with no gate: each operation runs, in
order, on the state every previous operation (failed or not) left
behind, and reports its own outcome. -/
def execAll {ε σ α : Type} (fns : List (σ → Outcome ε α × σ)) (world : σ) :
    List (Outcome ε α) × σ :=
  match fns with
  | [] => ([], world)
  | fn :: rest =>
    let (r, world') := fn world
    let (rs, worldF) := execAll rest world'
    (r :: rs, worldF)

/-- Intermediate value `records` of `list` right after the filtering and
sorting steps and before pagination (the value `records` holds at
yaml.ts line 101). -/
def filterSortStage (q : YamlQuery) (records : List JSRecord) : List JSRecord :=
  match q.sort with
  | some s => sortRecords s (applyFilters q.filters records)
  | none => applyFilters q.filters records

/-- A query object with no field constraints and no shaping directives:
the literal `{}` passed as `query`. -/
def emptyQuery : YamlQuery := {}

/-! ### Helper lemmas -/

theorem lookupField_append (r s : JSRecord) (k : String) :
    lookupField (r ++ s) k =
      match lookupField r k with
      | some v => some v
      | none => lookupField s k := by
  induction r with
  | nil => simp [lookupField]
  | cons kv rest ih =>
    by_cases h : kv.1 = k <;> simp [lookupField, h, ih]

theorem lookupField_map_replace_ne (r : JSRecord) (k k' : String) (v : JSValue)
    (h : k' ≠ k) :
    lookupField (r.map fun kv => if kv.1 = k then (k, v) else kv) k' =
      lookupField r k' := by
  induction r with
  | nil => simp [lookupField]
  | cons kv rest ih =>
    obtain ⟨a, w⟩ := kv
    by_cases hk : a = k
    · have hkk : ¬ k = k' := fun hkk => h hkk.symm
      rw [List.map_cons]
      simp only [if_pos hk]
      rw [lookupField, lookupField, if_neg hkk, if_neg (hk ▸ hkk), ih]
    · rw [List.map_cons]
      simp only [if_neg hk]
      by_cases hk' : a = k'
      · rw [lookupField, lookupField, if_pos hk', if_pos hk']
      · rw [lookupField, lookupField, if_neg hk', if_neg hk', ih]

theorem lookupField_map_replace_self (r : JSRecord) (k : String) (v : JSValue)
    (hc : containsKey r k = true) :
    lookupField (r.map fun kv => if kv.1 = k then (k, v) else kv) k = some v := by
  induction r with
  | nil => simp [containsKey, lookupField] at hc
  | cons kv rest ih =>
    obtain ⟨a, w⟩ := kv
    by_cases ha : a = k
    · rw [List.map_cons]
      simp only [if_pos ha]
      rw [lookupField, if_pos rfl]
    · have hc' : containsKey rest k = true := by
        simpa [containsKey, lookupField, ha] using hc
      rw [List.map_cons]
      simp only [if_neg ha]
      rw [lookupField, if_neg ha, ih hc']

theorem lookupField_setProp (r : JSRecord) (k k' : String) (v : JSValue) :
    lookupField (setProp r k v) k' = if k' = k then some v else lookupField r k' := by
  unfold setProp
  by_cases hc : containsKey r k = true
  · rw [if_pos hc]
    by_cases hk : k' = k
    · subst hk
      rw [if_pos rfl]
      exact lookupField_map_replace_self r k' v hc
    · rw [if_neg hk]
      exact lookupField_map_replace_ne r k k' v hk
  · rw [if_neg hc, lookupField_append]
    by_cases hk : k' = k
    · subst hk
      have hnone : lookupField r k' = none := by
        cases hl : lookupField r k' with
        | none => rfl
        | some w => exact absurd (by simp [containsKey, hl]) hc
      rw [hnone, if_pos rfl, lookupField, if_pos rfl]
    · have hkk : ¬ k = k' := fun hkk => hk hkk.symm
      rw [if_neg hk]
      cases hl : lookupField r k' with
      | none => rw [lookupField, if_neg hkk, lookupField]
      | some w => rfl

theorem lookupField_foldl_setProp (src : JSRecord) (sel : List String)
    (acc : JSRecord) (k : String) :
    lookupField (sel.foldl (fun a key => setProp a key (getProp src key)) acc) k =
      if k ∈ sel then some (getProp src k) else lookupField acc k := by
  induction sel generalizing acc with
  | nil => simp
  | cons key rest ih =>
    rw [List.foldl_cons, ih]
    by_cases hr : k ∈ rest
    · simp [hr]
    · by_cases hk : k = key
      · subst hk
        simp [hr, lookupField_setProp]
      · simp [hr, hk, lookupField_setProp]

theorem lookupField_filter_keep (r : JSRecord) (p : String × JSValue → Bool)
    (k : String) (hp : ∀ v, p (k, v) = true) :
    lookupField (r.filter p) k = lookupField r k := by
  induction r with
  | nil => rfl
  | cons kv rest ih =>
    obtain ⟨a, w⟩ := kv
    rw [List.filter_cons]
    by_cases ha : a = k
    · subst ha
      simp [hp w, lookupField]
    · cases hpa : p (a, w) with
      | false => simp [hpa, lookupField, ha, ih]
      | true => simp [hpa, lookupField, ha, ih]

theorem lookupField_spreadMerge_left_id (data : JSRecord) (v : JSValue) (k : String)
    (hid : containsKey data "id" = true) :
    lookupField (spreadMerge [("id", v)] data) k = lookupField data k := by
  obtain ⟨w, hw⟩ : ∃ w, lookupField data "id" = some w := by
    cases hl : lookupField data "id" with
    | none =>
      unfold containsKey at hid
      rw [hl] at hid
      simp at hid
    | some w => exact ⟨w, rfl⟩
  unfold spreadMerge
  rw [List.map_cons, List.map_nil, hw, List.singleton_append]
  by_cases hk : "id" = k
  · subst hk
    simp [lookupField, hw]
  · simp only [lookupField, if_neg hk]
    apply lookupField_filter_keep
    intro u
    simp [containsKey, lookupField, if_neg hk]

theorem lookupTable_unlink_self (store : Store) (table id : String) :
    lookupTable (unlinkFile store table id) table =
      (lookupTable store table).map fun files => removeFileEntry files id := by
  induction store with
  | nil => rfl
  | cons tf rest ih =>
    obtain ⟨a, files⟩ := tf
    rw [unlinkFile]
    by_cases h : a = table
    · subst h
      rw [if_pos rfl, lookupTable, if_pos rfl, lookupTable, if_pos rfl]
      rfl
    · rw [if_neg h, lookupTable, if_neg h, lookupTable, if_neg h, ih]

theorem lookupFile_removeFileEntry_self (files : TableDir) (id : String) :
    lookupFile (removeFileEntry files id) id = none := by
  induction files with
  | nil => rfl
  | cons ic rest ih =>
    obtain ⟨a, c⟩ := ic
    rw [removeFileEntry]
    by_cases h : a = id
    · rw [if_pos h, ih]
    · rw [if_neg h, lookupFile, if_neg h, ih]

theorem jsSlice_nil {α : Type} (s e : Int) : jsSlice ([] : List α) s e = [] := by
  simp [jsSlice]

theorem jsSlice_drop_take {α : Type} (l : List α) (s t : Nat) :
    jsSlice l (s : Int) ((s : Int) + (t : Int)) = (l.drop s).take t := by
  have hs : ¬ ((s : Int) < 0) := by omega
  have hst : ¬ ((s : Int) + (t : Int) < 0) := by omega
  simp only [jsSlice, if_neg hs, if_neg hst]
  rcases le_or_lt s l.length with hle | hlt
  · have h1 : min ((s : Int)) ((l.length : Int)) = (s : Int) := by
      rw [min_eq_left]
      exact_mod_cast hle
    have h2 : ((s : Int)).toNat = s := by omega
    have h3 : (min ((s : Int) + (t : Int)) ((l.length : Int)) - (s : Int)).toNat
        = min t (l.length - s) := by
      rcases le_or_lt ((s : Int) + (t : Int)) ((l.length : Int)) with hm | hm
      · rw [min_eq_left hm]
        omega
      · rw [min_eq_right (le_of_lt hm)]
        omega
    rw [h1, h2, h3]
    rw [List.take_eq_take]
    rw [List.length_drop]
    omega
  · have h1 : min ((s : Int)) ((l.length : Int)) = ((l.length : Int)) := by
      rw [min_eq_right]
      exact_mod_cast le_of_lt hlt
    have h2 : ((l.length : Int)).toNat = l.length := by omega
    rw [h1, h2, List.drop_length, List.drop_eq_nil_of_le (le_of_lt hlt)]
    simp

theorem sortRecords_empty (s : List (String × Int)) : sortRecords s [] = [] := by
  cases s with
  | nil => rfl
  | cons kd rest => rfl

theorem applyQuery_nil (q : YamlQuery) : applyQuery q [] = [] := by
  unfold applyQuery
  cases hs : q.sort <;> cases hsel : q.select <;>
    simp [applyFilters, sortRecords_empty, jsSlice_nil]

theorem applyQuery_stage (q : YamlQuery) (records : List JSRecord)
    (hsel : q.select = none) :
    applyQuery q records =
      jsSlice (filterSortStage q records) (orFalsy q.skip 0)
        (orFalsy q.skip 0
          + orFalsy q.limit ((filterSortStage q records).length : Int)) := by
  unfold applyQuery filterSortStage
  rw [hsel]

theorem filterSortStage_emptyQuery (records : List JSRecord) :
    filterSortStage emptyQuery records = records := by
  simp [filterSortStage, emptyQuery, applyFilters]

theorem applyQuery_emptyQuery (records : List JSRecord) :
    applyQuery emptyQuery records = records := by
  rw [applyQuery_stage emptyQuery records rfl, filterSortStage_emptyQuery]
  show jsSlice records ((0 : Nat) : Int)
    (((0 : Nat) : Int) + ((records.length : Nat) : Int)) = records
  rw [jsSlice_drop_take records 0 records.length]
  simp

/-! ### The claims -/

/-- Claim C1, evaluated at its failing input: `create` on empty storage
with data that itself carries an `id` field returns a record whose `id`
is the submitted value (the spread `{ id, ...props.data }` lets the data
overwrite the generated id), yet writes the file under the *generated*
id, so a subsequent `find` at the returned record's id fails with
`Record not found` instead of returning the record. -/
theorem c1_create_find_fails_on_submitted_id :
    (createOp [] "t" [("id", .vStr "x")] "g").1 = [("id", .vStr "x")]
    ∧ getProp (createOp [] "t" [("id", .vStr "x")] "g").1 "id" = .vStr "x"
    ∧ findOp (createOp [] "t" [("id", .vStr "x")] "g").2 "t" "x"
        = .error (.notFound (recordPath "t" "x"))
    ∧ fileLookup (createOp [] "t" [("id", .vStr "x")] "g").2 "t" "g"
        = some (.ok [("id", .vStr "x")]) :=
  ⟨rfl, rfl, rfl, rfl⟩

/-- Claim C2, evaluated at its failing input: `update` with data that
contains an `id` field overwrites the stored and returned record's `id`
(`{ ...record, ...props.data }` lets the submitted `id` win), while the
file stays under the old id — contradicting "the id field cannot be
overwritten". -/
theorem c2_update_overwrites_id :
    (updateOp [("t", [("a", .ok [("id", .vStr "a"), ("age", .vNum 1)])])]
        "t" "a" [("id", .vStr "z")]).1
      = .ok [("id", .vStr "z"), ("age", .vNum 1)]
    ∧ fileLookup (updateOp [("t", [("a", .ok [("id", .vStr "a"), ("age", .vNum 1)])])]
        "t" "a" [("id", .vStr "z")]).2 "t" "a"
      = some (.ok [("id", .vStr "z"), ("age", .vNum 1)]) :=
  ⟨rfl, rfl⟩

/-- Claim C3, evaluated at its failing input: a `$or` (or `$and`) entry
survives the directive destructuring and is treated as a field
constraint whose array value only yields unknown operator keys ("0",
"1", …), which the switch ignores — so a record that matches *no*
sub-query still matches the `$or` query, and `list` returns it. -/
theorem c3_or_and_ignored :
    matchesFilters [("$or", .vArr [.vObj [("age", .vNum 5)]])]
        [("id", .vStr "a"), ("age", .vNum 10)] = true
    ∧ matchesFilters [("age", .vNum 5)] [("id", .vStr "a"), ("age", .vNum 10)] = false
    ∧ matchesFilters [("$and", .vArr [.vObj [("age", .vNum 5)]])]
        [("id", .vStr "a"), ("age", .vNum 10)] = true
    ∧ listOp [("t", [("a", .ok [("id", .vStr "a"), ("age", .vNum 10)])])] "t"
        (some { filters := [("$or", .vArr [.vObj [("age", .vNum 5)]])] })
      = [[("id", .vStr "a"), ("age", .vNum 10)]] :=
  ⟨rfl, rfl, rfl, rfl⟩

/-- Claim C4 counterexample: with `$limit: 0` the code's `$limit ||
records.length` falls through to the full remaining count, so `list`
returns the whole record set instead of the empty slice the claim
demands. -/
theorem c4_limit_zero_returns_all :
    listOp [("t", [("a", .ok [("id", .vStr "a")])])] "t"
        (some { limit := some 0 }) = [[("id", .vStr "a")]]
    ∧ ([[("id", .vStr "a")]] : List JSRecord) ≠ [] :=
  ⟨rfl, by simp⟩

/-- Claim C4 as amended: pagination happens after filtering and sorting
(`filterSortStage`), with `skip = $skip || 0` and `limit = $limit ||
remaining count`; for a present non-zero `$limit` the result is exactly
the slice `[skip, skip+limit)` of the filtered-and-sorted sequence, and
an absent — or zero, by falsy fallthrough — `$limit` yields everything
from `skip` on. -/
theorem c4_pagination (q : YamlQuery) (records : List JSRecord) (s : Nat)
    (hskip : q.skip = some (s : Int) ∨ (q.skip = none ∧ s = 0))
    (hsel : q.select = none) :
    (∀ t : Nat, t ≠ 0 → q.limit = some (t : Int) →
      applyQuery q records = ((filterSortStage q records).drop s).take t)
    ∧ ((q.limit = some 0 ∨ q.limit = none) →
      applyQuery q records = (filterSortStage q records).drop s) := by
  have hskip' : orFalsy q.skip 0 = (s : Int) := by
    rcases hskip with h | ⟨h, hs0⟩
    · simp only [h, orFalsy]
      by_cases h0 : (s : Int) = 0
      · rw [if_pos h0]
        omega
      · rw [if_neg h0]
    · rw [h, hs0]
      rfl
  rw [applyQuery_stage q records hsel]
  constructor
  · intro t ht hlim
    have ht' : ¬ ((t : Int) = 0) := by exact_mod_cast ht
    have hlim' : orFalsy q.limit ((filterSortStage q records).length : Int)
        = (t : Int) := by
      simp only [hlim, orFalsy]
      rw [if_neg ht']
    rw [hskip', hlim', jsSlice_drop_take]
  · intro hl
    have hlim' : orFalsy q.limit ((filterSortStage q records).length : Int)
        = ((filterSortStage q records).length : Int) := by
      rcases hl with h | h
      · simp [h, orFalsy]
      · rw [h]
        rfl
    rw [hskip', hlim',
      jsSlice_drop_take (filterSortStage q records) s (filterSortStage q records).length]
    rw [List.take_of_length_le]
    rw [List.length_drop]
    omega

/-- Witness for the amended claim C4 at a concrete input: skip 1 with
`$limit: 0` on a two-record table keeps the remainder after the skip. -/
theorem c4_pagination_witness :
    applyQuery { skip := some 1, limit := some 0 }
        [[("id", .vStr "a")], [("id", .vStr "b")]]
      = (filterSortStage { skip := some 1, limit := some 0 }
          [[("id", .vStr "a")], [("id", .vStr "b")]]).drop 1 :=
  (c4_pagination { skip := some 1, limit := some 0 }
    [[("id", .vStr "a")], [("id", .vStr "b")]] 1 (Or.inl rfl) rfl).2 (Or.inl rfl)

/-- Claim C5 counterexample: selecting a field the source record lacks
does not omit it — the assignment `selectedRecord[key] = record[key]`
creates the property with value `undefined`, so the projected record
contains the key `age`. -/
theorem c5_select_missing_field_present_undefined :
    listOp [("t", [("x", .ok [("id", .vStr "x")])])] "t"
        (some { select := some ["age"] })
      = [[("id", .vStr "x"), ("age", .vUndefined)]]
    ∧ containsKey [("id", .vStr "x"), ("age", .vUndefined)] "age" = true :=
  ⟨rfl, rfl⟩

/-- Claim C5 as amended: with `$select` present every returned record is
the projection of some source record, and the projection binds exactly
`id` plus every selected key — each to the source's value, which is
`undefined` for keys (including `id`) the source lacks — and nothing
else. -/
theorem c5_select_projection (q : YamlQuery) (sel : List String)
    (records : List JSRecord) (hsel : q.select = some sel) :
    (∀ res, res ∈ applyQuery q records → ∃ src, res = projectRecord sel src)
    ∧ (∀ r k, lookupField (projectRecord sel r) k =
        if k = "id" ∨ k ∈ sel then some (getProp r k) else none) := by
  constructor
  · intro res hres
    unfold applyQuery at hres
    simp only [hsel] at hres
    rcases List.mem_map.mp hres with ⟨src, _, h⟩
    exact ⟨src, h.symm⟩
  · intro r k
    unfold projectRecord
    rw [lookupField_foldl_setProp]
    by_cases hid : k = "id"
    · subst hid
      by_cases hmem : "id" ∈ sel <;> simp [hmem, lookupField]
    · have h2 : ¬ ("id" = k) := fun h => hid h.symm
      by_cases hmem : k ∈ sel
      · simp [hmem]
      · simp [hmem, hid, lookupField, h2]

/-- Witness for the amended claim C5 at a concrete input. -/
theorem c5_select_projection_witness :
    lookupField (projectRecord ["age"] [("id", .vStr "x"), ("age", .vNum 5)]) "age"
      = if "age" = "id" ∨ "age" ∈ ["age"]
        then some (getProp [("id", .vStr "x"), ("age", .vNum 5)] "age") else none :=
  (c5_select_projection { select := some ["age"] } ["age"] [] rfl).2
    [("id", .vStr "x"), ("age", .vNum 5)] "age"

/-- Claim C6: a sequence of operations scheduled through one gate runs
exactly like plain sequential execution — every operation executes, in
scheduling order, on the world state all its predecessors (failed ones
included) left behind; each returned handle carries that operation's own
outcome; a failure neither stops later operations nor leaks into their
handles; and the gate's stored chain ends (and stays) fulfilled, so the
gate itself never fails. -/
theorem mutexRun_init {ε σ α : Type} (fn : σ → Outcome ε α × σ) (world : σ) :
    Mutex.run (Mutex.init : Mutex ε) fn world
      = ((fn world).1, Mutex.init, (fn world).2) := by
  unfold Mutex.run Mutex.init
  cases hfw : fn world with
  | mk r world' =>
    have hc : promiseCatch r = Outcome.fulfilled () := by
      cases r <;> rfl
    simp [hc]

theorem c6_write_gate_serializes {ε σ α : Type} (fns : List (σ → Outcome ε α × σ))
    (world : σ) :
    Mutex.runAll Mutex.init fns world
      = ((execAll fns world).1, Mutex.init, (execAll fns world).2) := by
  induction fns generalizing world with
  | nil => rfl
  | cons fn rest ih =>
    unfold Mutex.runAll execAll
    rw [mutexRun_init fn world]
    dsimp only []
    rw [ih (fn world).2]

/-- Claim C7: `remove` fails with the `Record not found` error exactly
when the record's file is absent (a present-but-corrupt file fails with
a parse error instead, not `NotFound`); on a record that has an `id`
field it succeeds with the record's pre-deletion state (field for field)
and a subsequent `find` of the same id fails with `Record not found`. -/
theorem c7_remove_semantics (store : Store) (table id : String) :
    ((∃ p, (removeOp store table id).1 = .error (.notFound p)) ↔
      fileLookup store table id = none)
    ∧ (∀ data, fileLookup store table id = some (.ok data) →
        containsKey data "id" = true →
        (removeOp store table id).1 = .ok (spreadMerge [("id", .vStr id)] data)
        ∧ (∀ k, lookupField (spreadMerge [("id", .vStr id)] data) k
            = lookupField data k)
        ∧ findOp (removeOp store table id).2 table id
            = .error (.notFound (recordPath table id))) := by
  constructor
  · cases hf : fileLookup store table id with
    | none =>
      have h1 : (removeOp store table id).1
          = .error (.notFound (recordPath table id)) := by
        unfold removeOp readRecord
        rw [hf]
      exact ⟨fun _ => rfl, fun _ => ⟨recordPath table id, h1⟩⟩
    | some c =>
      cases c with
      | corrupt =>
        have h1 : (removeOp store table id).1 = .error (.parseError table id) := by
          unfold removeOp readRecord
          rw [hf]
        constructor
        · rintro ⟨p, hp⟩
          rw [h1] at hp
          simp at hp
        · intro hn
          simp at hn
      | ok data =>
        have h1 : (removeOp store table id).1
            = .ok (spreadMerge [("id", .vStr id)] data) := by
          unfold removeOp readRecord
          rw [hf]
          simp [hf]
        constructor
        · rintro ⟨p, hp⟩
          rw [h1] at hp
          simp at hp
        · intro hn
          simp at hn
  · intro data hf hid
    have hrr : readRecord store table id = .ok data := by
      unfold readRecord
      rw [hf]
    refine ⟨?_, fun k => lookupField_spreadMerge_left_id data (.vStr id) k hid, ?_⟩
    · unfold removeOp
      rw [hrr]
      simp [hf]
    · have h2 : (removeOp store table id).2 = unlinkFile store table id := by
        unfold removeOp
        rw [hrr]
        simp [hf]
      rw [h2]
      obtain ⟨files, hT, _⟩ :
          ∃ files, lookupTable store table = some files
            ∧ lookupFile files id = some (.ok data) := by
        unfold fileLookup at hf
        cases hT : lookupTable store table with
        | none =>
          rw [hT] at hf
          simp at hf
        | some files =>
          rw [hT] at hf
          exact ⟨files, rfl, by simpa using hf⟩
      unfold findOp readRecord fileLookup
      rw [lookupTable_unlink_self, hT]
      simp [lookupFile_removeFileEntry_self]

/-- Witness for claim C7: its success branch applied at a one-record
store. -/
theorem c7_remove_semantics_witness :
    (removeOp [("t", [("a", .ok [("id", .vStr "a"), ("age", .vNum 2)])])] "t" "a").1
      = .ok [("id", .vStr "a"), ("age", .vNum 2)] :=
  ((c7_remove_semantics [("t", [("a", .ok [("id", .vStr "a"), ("age", .vNum 2)])])]
      "t" "a").2 [("id", .vStr "a"), ("age", .vNum 2)] rfl rfl).1

/-- Claim C8: `list` on a table whose directory is absent, or exists
with no record files, returns the empty sequence for every query (and,
being a total function of the store, never fails). -/
theorem c8_list_empty_table (store : Store) (table : String)
    (query : Option YamlQuery)
    (h : lookupTable store table = none ∨ lookupTable store table = some []) :
    listOp store table query = [] := by
  unfold listOp
  rcases h with h | h
  · rw [h]
  · rw [h]
    cases query with
    | none => rfl
    | some q => simpa using applyQuery_nil q

/-- Witness for claim C8 at concrete inputs: a never-created table. -/
theorem c8_list_empty_table_witness :
    listOp [("u", [])] "t" none = [] :=
  c8_list_empty_table [("u", [])] "t" none (Or.inl rfl)

/-- Claim C9: passing the empty query object `{}` to `list` returns
exactly what passing no query at all returns, on every store: it
filters, reorders, truncates and projects nothing. -/
theorem c9_empty_query_is_no_query (store : Store) (table : String) :
    listOp store table (some emptyQuery) = listOp store table none := by
  unfold listOp
  cases h : lookupTable store table with
  | none => rfl
  | some files => simp [applyQuery_emptyQuery]

/-- Claim C10: an `update` or `remove` whose record is absent throws
`Record not found` before reaching its write, leaving the stored file
set exactly as it was. -/
theorem c10_failed_mutation_preserves_store (store : Store) (table id : String)
    (data : JSRecord) (h : fileLookup store table id = none) :
    (updateOp store table id data).1 = .error (.notFound (recordPath table id))
    ∧ (updateOp store table id data).2 = store
    ∧ (removeOp store table id).1 = .error (.notFound (recordPath table id))
    ∧ (removeOp store table id).2 = store := by
  have hr : readRecord store table id = .error (.notFound (recordPath table id)) := by
    unfold readRecord
    rw [h]
  unfold updateOp removeOp
  rw [hr]
  exact ⟨rfl, rfl, rfl, rfl⟩

/-- Witness for claim C10 at a concrete input: an existing but empty
table directory. -/
theorem c10_failed_mutation_preserves_store_witness :
    (updateOp [("t", [])] "t" "a" [("x", .vNull)]).1
      = .error (.notFound (recordPath "t" "a"))
    ∧ (updateOp [("t", [])] "t" "a" [("x", .vNull)]).2 = [("t", [])]
    ∧ (removeOp [("t", [])] "t" "a").1 = .error (.notFound (recordPath "t" "a"))
    ∧ (removeOp [("t", [])] "t" "a").2 = [("t", [])] :=
  c10_failed_mutation_preserves_store [("t", [])] "t" "a" [("x", .vNull)] rfl

end Crud
